import Mathlib

/-!
Verification development for the A10_hackathon prompt-firewall repository.

The embedding models, from the source:
  * `src/backend/utils/sanitizer.py`  — `PromptSanitizationAgent.process`
    (intent normalization, group loading, block/redact partition of the
    group's policies by keyword sniffing, the block short-circuit loop and
    the cumulative redaction loop, and the returned decision dictionaries);
  * `src/backend/policy_controller.py` — `get_group_with_policies` over a
    point-in-time snapshot of the Mongo collections, with `bson.ObjectId`'s
    validation (a string id must be 24 hex digits, otherwise the constructor
    raises `InvalidId`);
  * `src/backend/main.py`             — the `/sanitize` endpoint handler,
    with the observability log threaded through explicitly so its (absence
    of) side effect on the log is visible;
  * Python's `re` engine restricted to the star-free fragment the policies
    exercise (literal characters, `.`, character classes, alternation and
    concatenation), with the `re.IGNORECASE` flag modelled by
    case-insensitive character comparison, and `finditer` / `sub`
    modelled by a left-to-right scan taking the backtracking-first match
    at each position and continuing after its end.

Machine-level aspects that no claim touches (Mongo wire behaviour, the
LLM client construction, HTTP marshaling) are outside the model.
-/

namespace Firewall

/-! ## String helpers (Python `str.lower`, `str.strip`, `in`) -/

/-- Python's `str.lower()` restricted to basic latin, as Lean's
`Char.toLower` does. -/
def strLower (s : String) : String := ⟨s.data.map Char.toLower⟩

/-- Characters stripped by Python's `str.strip()` with no argument
(the common whitespace characters). -/
def isStripChar (c : Char) : Bool :=
  c == ' ' || c == '\t' || c == '\n' || c == '\r'

/-- Python's `str.strip()`: drop whitespace from both ends. -/
def strStrip (s : String) : String :=
  ⟨((s.data.dropWhile isStripChar).reverse.dropWhile isStripChar).reverse⟩

/-- Does the list start with the given pattern list? -/
def listStartsWith : List Char → List Char → Bool
  | _, [] => true
  | [], _ :: _ => false
  | x :: xs, y :: ys => x == y && listStartsWith xs ys

/-- Python's substring containment `sub in hay` at the character level. -/
def listContainsSub (sub : List Char) : List Char → Bool
  | [] => listStartsWith [] sub
  | x :: t => listStartsWith (x :: t) sub || listContainsSub sub t

/-- Python's `sub in hay` on strings. -/
def strContains (hay sub : String) : Bool := listContainsSub sub.data hay.data

/-! ## Regex model

Star-free fragment of Python `re`: literal characters, `.` (any character
except a newline), character classes `[...]` / `[^...]`, concatenation and
alternation.  Patterns enter the model already parsed; a pattern string
that Python's `re.compile` rejects has no `Regex` counterpart, which is how
the `except re.error` skip branch of the sanitizer is reflected here (see
`splitPolicies`). -/

inductive Regex where
  | eps : Regex
  | ch (c : Char) : Regex
  | dot : Regex
  | cls (cs : List Char) (neg : Bool) : Regex
  | cat (r1 r2 : Regex) : Regex
  | alt (r1 r2 : Regex) : Regex
deriving DecidableEq, Repr

/-- Character comparison under an ignore-case flag, the model of
`re.IGNORECASE` at the single-character level. -/
def charMatch (ic : Bool) (pc c : Char) : Bool :=
  if ic then pc.toLower == c.toLower else pc == c

/-- Membership of a character in a (possibly negated) character class. -/
def clsMatch (ic : Bool) (cs : List Char) (neg : Bool) (c : Char) : Bool :=
  let b := cs.any (fun pc => charMatch ic pc c)
  if neg then !b else b

/-- All numbers of characters the regex can consume from the front of the
input, in Python's backtracking preference order (left alternative first,
first extendable choice first in a concatenation). -/
def allMatches (ic : Bool) : Regex → List Char → List Nat
  | .eps, _ => [0]
  | .ch c, s =>
    match s with
    | [] => []
    | x :: _ => if charMatch ic c x then [1] else []
  | .dot, s =>
    match s with
    | [] => []
    | x :: _ => if x == '\n' then [] else [1]
  | .cls cs neg, s =>
    match s with
    | [] => []
    | x :: _ => if clsMatch ic cs neg x then [1] else []
  | .cat r1 r2, s =>
    (allMatches ic r1 s).flatMap
      (fun n => (allMatches ic r2 (s.drop n)).map (fun m => n + m))
  | .alt r1 r2, s => allMatches ic r1 s ++ allMatches ic r2 s

/-- The match Python's backtracking engine reports at the current
position, if any: the first choice in preference order. -/
def matchAt (ic : Bool) (r : Regex) (s : List Char) : Option Nat :=
  (allMatches ic r s).head?

/-- Left-to-right scan modelling `re.finditer`: at each position take the
engine's match if there is one, record `(start, length)`, and continue
after its end (one character further for an empty match).  `skip` counts
the characters still covered by the previous match; when it is positive
the scanner moves on without attempting a match, which realises the
"continue after the match end" of the engine while keeping the recursion
structural (so that concrete runs reduce in the kernel). -/
def scanChars (ic : Bool) (r : Regex) : List Char → Nat → Nat → List (Nat × Nat)
  | [], pos, skip =>
    if skip == 0 then
      match matchAt ic r [] with
      | some n => [(pos, n)]
      | none => []
    else []
  | _ :: xs, pos, skip + 1 => scanChars ic r xs (pos + 1) skip
  | x :: xs, pos, 0 =>
    match matchAt ic r (x :: xs) with
    | some 0 => (pos, 0) :: scanChars ic r xs (pos + 1) 0
    | some (n + 1) => (pos, n + 1) :: scanChars ic r xs (pos + 1) n
    | none => scanChars ic r xs (pos + 1) 0

/-- `re.finditer` on a string: the `(start, length)` spans of the
non-overlapping matches, left to right. -/
def reFind (ic : Bool) (r : Regex) (s : String) : List (Nat × Nat) :=
  scanChars ic r s.data 0 0

/-- The text of a match span inside `s` (what `match.group()` returns). -/
def matchText (s : String) (m : Nat × Nat) : String :=
  ⟨(s.data.drop m.1).take m.2⟩

/-- Left-to-right substitution on characters modelling `re.sub`: replace
each non-overlapping match with the replacement characters (the
replacement is treated literally; the policies use no back-references).
`skip` counts the remaining characters of the match being replaced, which
are consumed without being copied. -/
def subChars (ic : Bool) (r : Regex) (repl : List Char) : List Char → Nat → List Char
  | [], skip =>
    if skip == 0 then
      match matchAt ic r [] with
      | some _ => repl
      | none => []
    else []
  | _ :: xs, skip + 1 => subChars ic r repl xs skip
  | x :: xs, 0 =>
    match matchAt ic r (x :: xs) with
    | some 0 => repl ++ x :: subChars ic r repl xs 0
    | some (n + 1) => repl ++ subChars ic r repl xs n
    | none => x :: subChars ic r repl xs 0

/-- `re.sub(pattern, replacement, s)` on strings. -/
def reSub (ic : Bool) (r : Regex) (repl : String) (s : String) : String :=
  ⟨subChars ic r repl.data s.data 0⟩

/-! ## Data model (`policy_controller.py`)

A policy document carries exactly the fields the controller reads and
re-emits in `get_group_with_policies`: `id, name, pattern, replacement,
active`.  There is no `action` field anywhere in `PolicyIn`, `PolicyOut`
or the stored documents.  The `pattern` field holds the compiled form of
the stored pattern string (see the `Regex` note above). -/

structure Policy where
  id : String
  name : String
  pattern : Regex
  replacement : String
  active : Bool
deriving DecidableEq, Repr

/-- A document of the `groups` collection: `{_id, name, policy_ids}`. -/
structure GroupDoc where
  id : String
  name : String
  policy_ids : List String
deriving DecidableEq, Repr

/-- Point-in-time snapshot of the two Mongo collections; `find_one`
returns the first document in collection order. -/
structure Store where
  policies : List Policy
  groups : List GroupDoc
deriving DecidableEq, Repr

/-- What `get_group_with_policies` returns for a found group: the group
document with its `policy_ids` expanded to live policy records. -/
structure GroupPol where
  id : String
  name : String
  policies : List Policy
deriving DecidableEq, Repr

/-- Is a character one of `0-9a-fA-F`? -/
def isHexCh (c : Char) : Bool :=
  c.isDigit || ('a' ≤ c && c ≤ 'f') || ('A' ≤ c && c ≤ 'F')

/-- `bson.ObjectId(s)` accepts a string only if it is 24 hexadecimal
characters; anything else raises `InvalidId`. -/
def isValidObjectId (s : String) : Bool :=
  s.length == 24 && s.data.all isHexCh

/-- Python truthiness of an optional string argument (`if group_id:`):
present and non-empty. -/
def truthy : Option String → Bool
  | some s => !(s == "")
  | none => false

/-- The policy-expansion loop of `get_group_with_policies`: each listed id
goes through `ObjectId(pid)` (raising on a malformed id) and a
`find_one`; ids of deleted policies are silently dropped. -/
def expandPolicies (st : Store) : List String → Except String (List Policy)
  | [] => .ok []
  | pid :: rest =>
    if isValidObjectId pid then
      match st.policies.find? (fun p => p.id == pid) with
      | some p => (expandPolicies st rest).map (fun ps => p :: ps)
      | none => expandPolicies st rest
    else .error "InvalidId"

/-- `get_group_with_policies(group_id, name)`: a truthy `group_id` is
looked up by `ObjectId` (so a malformed id raises `InvalidId` before any
query); otherwise a truthy `name` is matched case-insensitively and
exactly (the `^name$` regex with the `i` option); otherwise the result is
`None`.  A found group is returned with its policies expanded. -/
def get_group_with_policies (group_id name : Option String) (st : Store) :
    Except String (Option GroupPol) :=
  if truthy group_id then
    let gid := group_id.getD ""
    if isValidObjectId gid then
      match st.groups.find? (fun g => g.id == gid) with
      | none => .ok none
      | some gd =>
        (expandPolicies st gd.policy_ids).map (fun ps => some ⟨gd.id, gd.name, ps⟩)
    else .error "InvalidId"
  else if truthy name then
    let nm := name.getD ""
    match st.groups.find? (fun g => strLower g.name == strLower nm) with
    | none => .ok none
    | some gd =>
      (expandPolicies st gd.policy_ids).map (fun ps => some ⟨gd.id, gd.name, ps⟩)
  else .ok none

/-! ## Decision record (`sanitizer.py` return dictionaries) -/

/-- The `group` sub-dictionary of a decision. -/
structure GroupRef where
  id : String
  name : String
deriving DecidableEq, Repr

/-- One entry of `evidence["violations"]`.  The source stores the pattern
string under `"pattern"` and the matched text under `"match"`; `position`
is `[match.start(), match.end()]`. -/
structure Violation where
  pattern : Regex
  matched : String
  policy : String
  action : String
  position : Nat × Nat
deriving DecidableEq, Repr

/-- One entry of `applied_policies`. -/
structure AppliedPolicy where
  name : String
  pattern : Regex
  replacement : String
  action : String
deriving DecidableEq, Repr

/-- The `evidence` sub-dictionary. -/
structure Evidence where
  reason : String
  violations : List Violation
  categories : List String
deriving DecidableEq, Repr

/-- The decision dictionary returned by `process`. -/
structure Decision where
  status : String
  action : String
  intent : String
  group : Option GroupRef
  original_prompt : String
  redacted_prompt : Option String
  message : String
  evidence : Evidence
  applied_policies : List AppliedPolicy
deriving DecidableEq, Repr

/-! ## Sanitization pipeline (`PromptSanitizationAgent.process`) -/

/-- Lines 58-60 of the sanitizer: the oracle label is stripped and
lowercased, and anything outside `{safe, malicious}` becomes `safe`. -/
def intentOf (label : String) : String :=
  let l := strLower (strStrip label)
  if l == "safe" || l == "malicious" then l else "safe"

/-- Lines 108-119: a policy is routed to the block list when its
lowercased name contains one of `block`, `reject`, `deny`, `prevent`, or
its lowercased replacement contains one of `block`, `reject`, `deny`;
every other policy is a redact policy. -/
def isBlockPolicy (p : Policy) : Bool :=
  ["block", "reject", "deny", "prevent"].any (fun k => strContains (strLower p.name) k) ||
    ["block", "reject", "deny"].any (fun k => strContains (strLower p.replacement) k)

/-- Lines 96-122: one pass over the group's policies, skipping inactive
ones and partitioning the rest into block and redact lists, preserving
group-membership order.  (The `except re.error` skip has no counterpart
because patterns enter the model already compiled.) -/
def splitPolicies : List Policy → List Policy × List Policy
  | [] => ([], [])
  | p :: ps =>
    let rest := splitPolicies ps
    if !p.active then rest
    else if isBlockPolicy p then (p :: rest.1, rest.2)
    else (rest.1, p :: rest.2)

/-- Lines 124-159: walk the block policies in order against the original
prompt; the first one with any match is returned together with its match
list, and nothing after it is evaluated. -/
def firstBlockHit (prompt : String) : List Policy → Option (Policy × List (Nat × Nat))
  | [] => none
  | p :: ps =>
    let ms := reFind true p.pattern prompt
    if ms.isEmpty then firstBlockHit prompt ps else some (p, ms)

/-- A violation entry for a match of `p` found in the working text `t`. -/
def mkViolation (p : Policy) (act : String) (t : String) (m : Nat × Nat) : Violation :=
  ⟨p.pattern, matchText t m, p.name, act, (m.1, m.1 + m.2)⟩

/-- An `applied_policies` entry for `p`. -/
def mkApplied (p : Policy) (act : String) : AppliedPolicy :=
  ⟨p.name, p.pattern, p.replacement, act⟩

/-- The mutable locals of the redact loop: `redacted`,
`redactions_made`, `violations`, `applied_policies`. -/
structure RedactState where
  text : String
  made : Bool
  violations : List Violation
  applied : List AppliedPolicy
deriving DecidableEq, Repr

/-- Lines 161-186: each redact policy is matched against the current
working text; on a match the violations are recorded, the substitution is
applied to the working text, and the policy is appended to
`applied_policies`. -/
def redactLoop : List Policy → RedactState → RedactState
  | [], st => st
  | p :: ps, st =>
    let ms := reFind true p.pattern st.text
    if ms.isEmpty then redactLoop ps st
    else
      redactLoop ps
        { text := reSub true p.pattern p.replacement st.text
          made := true
          violations := st.violations ++ ms.map (mkViolation p "redact" st.text)
          applied := st.applied ++ [mkApplied p "redact"] }

/-- The effect of one redact policy on the working text: substitute when
the pattern matches, otherwise leave the text alone.  (`re.sub` with no
match is the identity anyway, but the source only substitutes under the
`if matches:` guard, which this mirrors.) -/
def redactStep (t : String) (p : Policy) : String :=
  if (reFind true p.pattern t).isEmpty then t
  else reSub true p.pattern p.replacement t

/-- The violations the redact loop records, written as a stand-alone
recursion: policy `p` contributes the matches found in the current
working text, and the rest of the list continues on the stepped text. -/
def redactViols : List Policy → String → List Violation
  | [], _ => []
  | p :: ps, t =>
    (reFind true p.pattern t).map (mkViolation p "redact" t) ++ redactViols ps (redactStep t p)

/-- Lines 62-76: the decision for a malicious classification. -/
def maliciousDecision (prompt : String) : Decision :=
  { status := "blocked", action := "blocked", intent := "malicious"
    group := none, original_prompt := prompt, redacted_prompt := none
    message := "Content blocked due to malicious intent"
    evidence := ⟨"llm_classified_malicious", [], ["malicious_intent"]⟩
    applied_policies := [] }

/-- Lines 80-94: the fail-closed decision when no group resolves. -/
def noGroupDecision (intent prompt : String) : Decision :=
  { status := "blocked", action := "blocked", intent := intent
    group := none, original_prompt := prompt, redacted_prompt := none
    message := "No matching security group found"
    evidence := ⟨"no_group_found", [], ["configuration_error"]⟩
    applied_policies := [] }

/-- Lines 145-159: the decision for the first matching block policy. -/
def blockedDecision (g : GroupPol) (intent prompt : String) (p : Policy)
    (ms : List (Nat × Nat)) : Decision :=
  { status := "blocked", action := "blocked", intent := intent
    group := some ⟨g.id, g.name⟩, original_prompt := prompt, redacted_prompt := none
    message := "Content blocked by policy: " ++ p.name
    evidence := ⟨"policy_violation_blocked", ms.map (mkViolation p "block" prompt),
      ["policy_violation"]⟩
    applied_policies := [mkApplied p "block"] }

/-- Lines 189-204: the decision when at least one redaction happened. -/
def redactedDecision (g : GroupPol) (intent prompt : String) (st : RedactState) : Decision :=
  { status := "redacted", action := "redacted", intent := intent
    group := some ⟨g.id, g.name⟩, original_prompt := prompt
    redacted_prompt := some st.text
    message := "Content sanitized by " ++ toString st.applied.length ++ " policies"
    evidence := ⟨"policy_violation_redacted", st.violations, ["sensitive_content"]⟩
    applied_policies := st.applied }

/-- Lines 205-221: the decision when nothing matched; `redacted_prompt`
is the (unchanged) working text. -/
def allowedDecision (g : GroupPol) (intent prompt finalText : String) : Decision :=
  { status := "allowed", action := "allowed", intent := intent
    group := some ⟨g.id, g.name⟩, original_prompt := prompt
    redacted_prompt := some finalText
    message := "Content approved - no policy violations detected"
    evidence := ⟨"no_policy_violations", [], []⟩
    applied_policies := [] }

/-- `PromptSanitizationAgent.process`, with the classification oracle's
raw output passed in as `label` (the LLM call is external).  An
`InvalidId` raised inside group resolution propagates as an error. -/
def process (label prompt : String) (group_id group_name : Option String)
    (st : Store) : Except String Decision :=
  let intent := intentOf label
  if intent == "malicious" then .ok (maliciousDecision prompt)
  else
    match get_group_with_policies group_id group_name st with
    | .error e => .error e
    | .ok none => .ok (noGroupDecision intent prompt)
    | .ok (some g) =>
      let parts := splitPolicies g.policies
      match firstBlockHit prompt parts.1 with
      | some (p, ms) => .ok (blockedDecision g intent prompt p ms)
      | none =>
        let res := redactLoop parts.2 ⟨prompt, false, [], []⟩
        if res.made then .ok (redactedDecision g intent prompt res)
        else .ok (allowedDecision g intent prompt res.text)

/-! ## Observability sink and the `/sanitize` endpoint (`main.py`,
`observability.py`) -/

/-- A row of the `firewall_logs` table, as `insert_log` writes it. -/
structure LogRecord where
  agent_id : Option String
  status : String
  payload : String
  sanitized_payload : Option String
deriving DecidableEq, Repr

/-- `FirewallObservability.insert_log`: append one row. -/
def insert_log (sink : List LogRecord) (r : LogRecord) : List LogRecord :=
  sink ++ [r]

/-- The JSON body accepted by `/sanitize` (both legacy and new keys). -/
structure SanitizeBody where
  prompt : Option String
  payload : Option String
  groupId : Option String
  group_id : Option String
  groupName : Option String
  group_name : Option String
  agent_id : Option String
deriving DecidableEq, Repr

/-- Python's `a or b` for an optional first operand and a string second
operand (empty strings are falsy). -/
def pyOrStr (a : Option String) (b : String) : String :=
  match a with
  | some s => if s == "" then b else s
  | none => b

/-- Python's `a or b` on two optional strings. -/
def pyOrOpt (a b : Option String) : Option String :=
  match a with
  | some s => if s == "" then b else some s
  | none => b

/-- The `/sanitize` handler (main.py lines 118-132): it reads the body,
rejects an empty prompt with HTTP 400, runs `agent.process`, and returns
the result.  The observability log is threaded through so its evolution
is explicit: the handler performs no `insert_log` call, so the log that
comes back is the log that went in. -/
def sanitizeEndpoint (label : String) (body : SanitizeBody) (st : Store)
    (sink : List LogRecord) : Except String Decision × List LogRecord :=
  let prompt := pyOrStr body.prompt (body.payload.getD "")
  if prompt == "" then (.error "HTTP400: Missing prompt or payload in request body", sink)
  else
    (process label prompt (pyOrOpt body.groupId body.group_id)
      (pyOrOpt body.groupName body.group_name) st, sink)

/-! ## Helper lemmas -/

theorem splitPolicies_fst (ps : List Policy) :
    (splitPolicies ps).1 = ps.filter (fun p => p.active && isBlockPolicy p) := by
  induction ps with
  | nil => rfl
  | cons p ps ih =>
    simp only [splitPolicies, List.filter]
    by_cases ha : p.active
    · by_cases hb : isBlockPolicy p
      · simp [ha, hb, ih]
      · simp [ha, hb, ih]
    · simp [ha, ih]

theorem splitPolicies_snd (ps : List Policy) :
    (splitPolicies ps).2 = ps.filter (fun p => p.active && !isBlockPolicy p) := by
  induction ps with
  | nil => rfl
  | cons p ps ih =>
    simp only [splitPolicies, List.filter]
    by_cases ha : p.active
    · by_cases hb : isBlockPolicy p
      · simp [ha, hb, ih]
      · simp [ha, hb, ih]
    · simp [ha, ih]

theorem mem_splitPolicies_fst {p : Policy} {ps : List Policy} :
    p ∈ (splitPolicies ps).1 ↔ p ∈ ps ∧ p.active = true ∧ isBlockPolicy p = true := by
  rw [splitPolicies_fst, List.mem_filter]
  simp [and_assoc]

theorem mem_splitPolicies_snd {p : Policy} {ps : List Policy} :
    p ∈ (splitPolicies ps).2 ↔ p ∈ ps ∧ p.active = true ∧ isBlockPolicy p = false := by
  rw [splitPolicies_snd, List.mem_filter]
  simp [and_assoc]

theorem firstBlockHit_eq_none {prompt : String} {bs : List Policy} :
    firstBlockHit prompt bs = none ↔ ∀ p ∈ bs, reFind true p.pattern prompt = [] := by
  induction bs with
  | nil => simp [firstBlockHit]
  | cons p ps ih =>
    simp only [firstBlockHit]
    by_cases h : (reFind true p.pattern prompt).isEmpty
    · rw [List.isEmpty_iff] at h
      simp [h, ih]
    · rw [List.isEmpty_iff] at h
      rw [if_neg (by simpa [List.isEmpty_iff] using h)]
      constructor
      · intro habs
        exact absurd habs (Option.some_ne_none _)
      · intro hall
        exact absurd (hall p (List.mem_cons_self p ps)) h

theorem firstBlockHit_of_match {prompt : String} {bs : List Policy}
    (h : ∃ p ∈ bs, reFind true p.pattern prompt ≠ []) :
    ∃ q ms, firstBlockHit prompt bs = some (q, ms) := by
  rcases hfb : firstBlockHit prompt bs with _ | pair
  · rw [firstBlockHit_eq_none] at hfb
    obtain ⟨p, hp, hne⟩ := h
    exact absurd (hfb p hp) hne
  · exact ⟨pair.1, pair.2, rfl⟩

theorem firstBlockHit_some_spec {prompt : String} {bs : List Policy}
    {p : Policy} {ms : List (Nat × Nat)}
    (h : firstBlockHit prompt bs = some (p, ms)) :
    ms = reFind true p.pattern prompt ∧ ms ≠ [] ∧
      ∃ pre post, bs = pre ++ p :: post ∧
        ∀ q ∈ pre, reFind true q.pattern prompt = [] := by
  induction bs with
  | nil => simp [firstBlockHit] at h
  | cons q qs ih =>
    simp only [firstBlockHit] at h
    by_cases hq : (reFind true q.pattern prompt).isEmpty
    · rw [if_pos hq] at h
      obtain ⟨hms, hne, pre, post, hsplit, hfirst⟩ := ih h
      refine ⟨hms, hne, q :: pre, post, by simp [hsplit], ?_⟩
      intro r hr
      rcases List.mem_cons.mp hr with rfl | hr'
      · exact List.isEmpty_iff.mp hq
      · exact hfirst r hr'
    · rw [if_neg hq] at h
      simp only [Option.some.injEq, Prod.mk.injEq] at h
      obtain ⟨rfl, rfl⟩ := h
      exact ⟨rfl, fun habs => hq (List.isEmpty_iff.mpr habs), [], qs, rfl, by simp⟩

theorem redactLoop_text (rs : List Policy) (st : RedactState) :
    (redactLoop rs st).text = rs.foldl redactStep st.text := by
  induction rs generalizing st with
  | nil => rfl
  | cons p ps ih =>
    simp only [redactLoop, List.foldl_cons]
    by_cases h : (reFind true p.pattern st.text).isEmpty
    · rw [if_pos h, ih]
      rw [List.isEmpty_iff] at h
      simp [redactStep, h]
    · rw [if_neg h, ih]
      rw [List.isEmpty_iff] at h
      simp [redactStep, h]

theorem redactLoop_made_true (rs : List Policy) (st : RedactState)
    (h : st.made = true) : (redactLoop rs st).made = true := by
  induction rs generalizing st with
  | nil => exact h
  | cons p ps ih =>
    simp only [redactLoop]
    by_cases hm : (reFind true p.pattern st.text).isEmpty
    · rw [if_pos hm]; exact ih st h
    · rw [if_neg hm]; exact ih _ rfl

theorem redactLoop_nomatch (rs : List Policy) (st : RedactState)
    (h : ∀ p ∈ rs, reFind true p.pattern st.text = []) : redactLoop rs st = st := by
  induction rs with
  | nil => rfl
  | cons p ps ih =>
    have hp : reFind true p.pattern st.text = [] := h p (List.mem_cons_self p ps)
    simp only [redactLoop]
    rw [if_pos (List.isEmpty_iff.mpr hp)]
    exact ih fun q hq => h q (List.mem_cons_of_mem p hq)

theorem redactLoop_made_of_match (rs : List Policy) (st : RedactState)
    (h : ∃ p ∈ rs, reFind true p.pattern st.text ≠ []) :
    (redactLoop rs st).made = true := by
  induction rs generalizing st with
  | nil => simp at h
  | cons p ps ih =>
    simp only [redactLoop]
    by_cases hm : (reFind true p.pattern st.text).isEmpty
    · rw [if_pos hm]
      rw [List.isEmpty_iff] at hm
      obtain ⟨q, hq, hne⟩ := h
      rcases List.mem_cons.mp hq with rfl | hq'
      · exact absurd hm hne
      · exact ih st ⟨q, hq', hne⟩
    · rw [if_neg hm]
      exact redactLoop_made_true _ _ rfl

theorem redactLoop_made_false_iff (rs : List Policy) (t : String)
    (vs : List Violation) (aps : List AppliedPolicy) :
    (redactLoop rs ⟨t, false, vs, aps⟩).made = false ↔
      ∀ p ∈ rs, reFind true p.pattern t = [] := by
  constructor
  · intro h
    by_contra hc
    push_neg at hc
    rw [redactLoop_made_of_match _ _ hc] at h
    cases h
  · intro h
    rw [redactLoop_nomatch _ _ h]

theorem redactLoop_violations (rs : List Policy) (st : RedactState) :
    (redactLoop rs st).violations = st.violations ++ redactViols rs st.text := by
  induction rs generalizing st with
  | nil => simp [redactLoop, redactViols]
  | cons p ps ih =>
    simp only [redactLoop, redactViols]
    by_cases h : (reFind true p.pattern st.text).isEmpty
    · rw [if_pos h, ih]
      rw [List.isEmpty_iff] at h
      simp [h, redactStep]
    · rw [if_neg h, ih]
      rw [List.isEmpty_iff] at h
      simp [redactStep, h, List.append_assoc]

theorem redactViols_cumulative (rs : List Policy) (t : String) :
    redactViols rs t = (List.finRange rs.length).flatMap
      (fun i =>
        (reFind true (rs.get i).pattern ((rs.take i.val).foldl redactStep t)).map
          (mkViolation (rs.get i) "redact" ((rs.take i.val).foldl redactStep t))) := by
  induction rs generalizing t with
  | nil => simp [redactViols]
  | cons p ps ih =>
    rw [redactViols]
    simp only [List.length_cons]
    rw [List.finRange_succ_eq_map, List.flatMap_cons, List.flatMap_map, ih (redactStep t p)]
    simp [Function.comp, List.get_cons_succ', List.take_succ_cons]

theorem toNat_charOfNat_of_valid {n : Nat} (h : n.isValidChar) : (Char.ofNat n).toNat = n := by
  rw [Char.ofNat, dif_pos h]
  rfl

theorem toLower_eq_newline {c : Char} (h : c.toLower = '\n') : c = '\n' := by
  simp only [Char.toLower] at h
  split at h
  · exfalso
    rename_i hc
    obtain ⟨h1, h2⟩ := hc
    have hvalid : (c.toNat + 32).isValidChar := Or.inl (by omega)
    have hval := congrArg Char.toNat h
    rw [toNat_charOfNat_of_valid hvalid] at hval
    have hnl : ('\n' : Char).toNat = 10 := rfl
    omega
  · exact h

theorem allMatches_ci (r : Regex) : ∀ (s t : List Char),
    s.map Char.toLower = t.map Char.toLower →
    allMatches true r s = allMatches true r t := by
  induction r with
  | eps => intro s t h; rfl
  | ch c =>
    intro s t h
    cases s with
    | nil =>
      cases t with
      | nil => rfl
      | cons y ys => simp at h
    | cons x xs =>
      cases t with
      | nil => simp at h
      | cons y ys =>
        simp only [List.map_cons, List.cons.injEq] at h
        simp only [allMatches, charMatch, if_true]
        rw [h.1]
  | dot =>
    intro s t h
    cases s with
    | nil =>
      cases t with
      | nil => rfl
      | cons y ys => simp at h
    | cons x xs =>
      cases t with
      | nil => simp at h
      | cons y ys =>
        simp only [List.map_cons, List.cons.injEq] at h
        have h1 : x.toLower = y.toLower := h.1
        simp only [allMatches]
        by_cases hx : x = '\n'
        · have hy : y = '\n' := toLower_eq_newline (by rw [← h1, hx]; decide)
          simp [hx, hy]
        · have hy : y ≠ '\n' := fun hyy => hx (toLower_eq_newline (by rw [h1, hyy]; decide))
          simp [hx, hy]
  | cls cs neg =>
    intro s t h
    cases s with
    | nil =>
      cases t with
      | nil => rfl
      | cons y ys => simp at h
    | cons x xs =>
      cases t with
      | nil => simp at h
      | cons y ys =>
        simp only [List.map_cons, List.cons.injEq] at h
        have h1 : x.toLower = y.toLower := h.1
        simp only [allMatches]
        have hcl : clsMatch true cs neg x = clsMatch true cs neg y := by
          simp only [clsMatch, charMatch, if_true, h1]
        rw [hcl]
  | cat r1 r2 ih1 ih2 =>
    intro s t h
    simp only [allMatches]
    rw [ih1 s t h]
    congr 1
    funext n
    rw [ih2 (s.drop n) (t.drop n) (by rw [List.map_drop, List.map_drop, h])]
  | alt r1 r2 ih1 ih2 =>
    intro s t h
    simp only [allMatches]
    rw [ih1 s t h, ih2 s t h]

theorem matchAt_ci (r : Regex) (s t : List Char)
    (h : s.map Char.toLower = t.map Char.toLower) :
    matchAt true r s = matchAt true r t := by
  rw [matchAt, matchAt, allMatches_ci r s t h]

theorem scanChars_ci (r : Regex) : ∀ (s t : List Char) (pos skip : Nat),
    s.map Char.toLower = t.map Char.toLower →
    scanChars true r s pos skip = scanChars true r t pos skip := by
  intro s
  induction s with
  | nil =>
    intro t pos skip h
    cases t with
    | nil => rfl
    | cons y ys => simp at h
  | cons x xs ih =>
    intro t pos skip h
    cases t with
    | nil => simp at h
    | cons y ys =>
      have hct := h
      simp only [List.map_cons, List.cons.injEq] at hct
      cases skip with
      | succ k => exact ih ys (pos + 1) k hct.2
      | zero =>
        rw [scanChars, scanChars, ← matchAt_ci r (x :: xs) (y :: ys) h]
        cases hma : matchAt true r (x :: xs) with
        | none =>
          dsimp only
          exact ih ys (pos + 1) 0 hct.2
        | some k =>
          cases k with
          | zero =>
            dsimp only
            congr 1
            exact ih ys (pos + 1) 0 hct.2
          | succ k' =>
            dsimp only
            congr 1
            exact ih ys (pos + 1) k' hct.2

theorem process_safe_group (label prompt : String) (gid gname : Option String)
    (st : Store) (g : GroupPol)
    (hsafe : intentOf label = "safe")
    (hg : get_group_with_policies gid gname st = .ok (some g)) :
    process label prompt gid gname st =
      match firstBlockHit prompt (splitPolicies g.policies).1 with
      | some (p, ms) => .ok (blockedDecision g "safe" prompt p ms)
      | none =>
        if (redactLoop (splitPolicies g.policies).2 ⟨prompt, false, [], []⟩).made = true then
          .ok (redactedDecision g "safe" prompt
            (redactLoop (splitPolicies g.policies).2 ⟨prompt, false, [], []⟩))
        else
          .ok (allowedDecision g "safe" prompt
            (redactLoop (splitPolicies g.policies).2 ⟨prompt, false, [], []⟩).text) := by
  simp only [process]
  rw [hsafe, hg]
  rfl

/-! ## Concrete fixtures for witnesses and counterexamples -/

/-- The literal regex matching exactly the characters of `s`. -/
def litRegex (s : String) : Regex :=
  s.data.foldr (fun c r => Regex.cat (Regex.ch c) r) Regex.eps

/-- A well-formed `ObjectId` string for a group. -/
def gidA : String := "aaaaaaaaaaaaaaaaaaaaaaaa"

/-- A well-formed `ObjectId` string for the block policy. -/
def pidB : String := "bbbbbbbbbbbbbbbbbbbbbbbb"

/-- A well-formed `ObjectId` string for the redact policy. -/
def pidC : String := "cccccccccccccccccccccccc"

/-- A policy whose name contains the keyword `block`, hence routed to the
block list. -/
def blockGreet : Policy := ⟨pidB, "block greetings", litRegex "hi", "", true⟩

/-- A redact policy replacing `ab` by `a`; its pattern does not match its
own replacement token. -/
def maskAb : Policy := ⟨pidC, "mask ab", litRegex "ab", "a", true⟩

/-- A store whose single group `team` carries only the redact policy. -/
def storeAb : Store := ⟨[maskAb], [⟨gidA, "team", [pidC]⟩]⟩

/-- The expansion of `team` in `storeAb`. -/
def gAb : GroupPol := ⟨gidA, "team", [maskAb]⟩

/-- A store whose single group `team` carries the block policy followed by
the redact policy. -/
def storeBlock : Store := ⟨[blockGreet, maskAb], [⟨gidA, "team", [pidB, pidC]⟩]⟩

/-- The expansion of `team` in `storeBlock`. -/
def gBlock : GroupPol := ⟨gidA, "team", [blockGreet, maskAb]⟩

/-- A `/sanitize` request body carrying a prompt and a group id. -/
def bodyHello : SanitizeBody :=
  ⟨some "hello", none, some gidA, none, none, none, some "agent-1"⟩

/-! ## Claims -/

/-- C1: for a safe-classified prompt and a resolved group, the block
policies (the group's policies, in membership order, filtered to the
active block-classified ones) are evaluated against the prompt before any
redact policy; the first block policy with a match ends evaluation with a
BLOCKED decision whose `redacted_prompt` is absent and whose evidence
holds only that policy's block-action matches — no redact-policy match
appears in it. -/
theorem block_short_circuit (label prompt : String) (gid gname : Option String)
    (st : Store) (g : GroupPol)
    (hsafe : intentOf label = "safe")
    (hg : get_group_with_policies gid gname st = .ok (some g))
    (hmatch : ∃ p ∈ (splitPolicies g.policies).1, reFind true p.pattern prompt ≠ []) :
    (splitPolicies g.policies).1 =
        g.policies.filter (fun p => p.active && isBlockPolicy p) ∧
      ∃ p ms pre post,
        (splitPolicies g.policies).1 = pre ++ p :: post ∧
        (∀ q ∈ pre, reFind true q.pattern prompt = []) ∧
        ms = reFind true p.pattern prompt ∧ ms ≠ [] ∧
        process label prompt gid gname st = .ok (blockedDecision g "safe" prompt p ms) ∧
        (blockedDecision g "safe" prompt p ms).status = "blocked" ∧
        (blockedDecision g "safe" prompt p ms).redacted_prompt = none ∧
        ∀ v ∈ (blockedDecision g "safe" prompt p ms).evidence.violations,
          v.action = "block" := by
  refine ⟨splitPolicies_fst g.policies, ?_⟩
  obtain ⟨p, ms, hfb⟩ := firstBlockHit_of_match hmatch
  obtain ⟨hms, hne, pre, post, hsplit, hfirst⟩ := firstBlockHit_some_spec hfb
  refine ⟨p, ms, pre, post, hsplit, hfirst, hms, hne, ?_, rfl, rfl, ?_⟩
  · simp only [process, hsafe, hg]
    rw [hfb]
    rfl
  · intro v hv
    simp only [blockedDecision] at hv
    obtain ⟨m, _, rfl⟩ := List.mem_map.mp hv
    rfl

/-- C2 (code defect evaluation): the `/sanitize` handler returns the
Decision while the observability log comes back exactly as it went in —
no `insert_log` happens on the request path, so the Decision is never
handed to the Observability Sink. -/
theorem sanitize_no_sink_write :
    (sanitizeEndpoint "safe" bodyHello storeBlock []).2 = [] ∧
    (sanitizeEndpoint "safe" bodyHello storeBlock []).1 =
      .ok (allowedDecision gBlock "safe" "hello" "hello") ∧
    (allowedDecision gBlock "safe" "hello" "hello").status = "allowed" := by
  exact ⟨rfl, rfl, rfl⟩

/-- C3 counterexample: two policies identical in pattern, replacement and
active flag but with different names are routed to different actions, so
the block/redact choice is not determined by an `action` field (the
`Policy` record of the code has none). -/
theorem action_field_counterexample :
    isBlockPolicy ⟨"dddddddddddddddddddddddd", "block email", litRegex "x", "[X]", true⟩ = true ∧
    isBlockPolicy ⟨"dddddddddddddddddddddddd", "mask email", litRegex "x", "[X]", true⟩ = false ∧
    splitPolicies [⟨"dddddddddddddddddddddddd", "block email", litRegex "x", "[X]", true⟩] =
      ([⟨"dddddddddddddddddddddddd", "block email", litRegex "x", "[X]", true⟩], []) ∧
    splitPolicies [⟨"dddddddddddddddddddddddd", "mask email", litRegex "x", "[X]", true⟩] =
      ([], [⟨"dddddddddddddddddddddddd", "mask email", litRegex "x", "[X]", true⟩]) := by
  exact ⟨rfl, rfl, rfl, rfl⟩

/-- C3 amended: a policy participates as a block policy exactly when it is
an active member whose lowercased name contains one of `block`, `reject`,
`deny`, `prevent`, or whose lowercased replacement contains one of
`block`, `reject`, `deny`; every other active member participates as a
redact policy. -/
theorem action_inference (ps : List Policy) (p : Policy) :
    (p ∈ (splitPolicies ps).1 ↔ p ∈ ps ∧ p.active = true ∧ isBlockPolicy p = true) ∧
    (p ∈ (splitPolicies ps).2 ↔ p ∈ ps ∧ p.active = true ∧ isBlockPolicy p = false) ∧
    (isBlockPolicy p = true ↔
      (∃ k ∈ (["block", "reject", "deny", "prevent"] : List String),
        strContains (strLower p.name) k = true) ∨
      ∃ k ∈ (["block", "reject", "deny"] : List String),
        strContains (strLower p.replacement) k = true) :=
  ⟨mem_splitPolicies_fst, mem_splitPolicies_snd, by
    simp [isBlockPolicy, List.any_eq_true]⟩

/-- C1 witness: the concrete prompt `say hi and ab` against the group
holding the block policy and the redact policy. -/
theorem block_short_circuit_witness :
    (splitPolicies gBlock.policies).1 =
        gBlock.policies.filter (fun p => p.active && isBlockPolicy p) ∧
      ∃ p ms pre post,
        (splitPolicies gBlock.policies).1 = pre ++ p :: post ∧
        (∀ q ∈ pre, reFind true q.pattern "say hi and ab" = []) ∧
        ms = reFind true p.pattern "say hi and ab" ∧ ms ≠ [] ∧
        process "safe" "say hi and ab" (some gidA) none storeBlock =
          .ok (blockedDecision gBlock "safe" "say hi and ab" p ms) ∧
        (blockedDecision gBlock "safe" "say hi and ab" p ms).status = "blocked" ∧
        (blockedDecision gBlock "safe" "say hi and ab" p ms).redacted_prompt = none ∧
        ∀ v ∈ (blockedDecision gBlock "safe" "say hi and ab" p ms).evidence.violations,
          v.action = "block" :=
  block_short_circuit "safe" "say hi and ab" (some gidA) none storeBlock gBlock rfl rfl
    ⟨blockGreet, by decide, by decide⟩

/-- C4: when the safe path reaches the redaction stage (no block match),
the decision's working text is the left fold of the per-policy
substitution steps over the redact policies, and the evidence records, for
the i-th redact policy, exactly the matches found in the text already
rewritten by the policies before it — never in the original prompt for a
later policy. -/
theorem cumulative_redaction (label prompt : String) (gid gname : Option String)
    (st : Store) (g : GroupPol)
    (hsafe : intentOf label = "safe")
    (hg : get_group_with_policies gid gname st = .ok (some g))
    (hnoblock : firstBlockHit prompt (splitPolicies g.policies).1 = none) :
    ∃ d, process label prompt gid gname st = .ok d ∧
      d.redacted_prompt = some ((splitPolicies g.policies).2.foldl redactStep prompt) ∧
      d.evidence.violations =
        (List.finRange (splitPolicies g.policies).2.length).flatMap (fun i =>
          (reFind true ((splitPolicies g.policies).2.get i).pattern
              (((splitPolicies g.policies).2.take i.val).foldl redactStep prompt)).map
            (mkViolation ((splitPolicies g.policies).2.get i) "redact"
              (((splitPolicies g.policies).2.take i.val).foldl redactStep prompt))) := by
  rw [process_safe_group label prompt gid gname st g hsafe hg, hnoblock]
  dsimp only
  by_cases hm : (redactLoop (splitPolicies g.policies).2 ⟨prompt, false, [], []⟩).made = true
  · rw [if_pos hm]
    refine ⟨_, rfl, ?_, ?_⟩
    · simp only [redactedDecision]
      rw [redactLoop_text]
    · simp only [redactedDecision]
      rw [redactLoop_violations]
      simp only [List.nil_append]
      exact redactViols_cumulative _ _
  · rw [if_neg hm]
    have hmf : (redactLoop (splitPolicies g.policies).2 ⟨prompt, false, [], []⟩).made = false := by
      simpa using hm
    have hall := (redactLoop_made_false_iff (splitPolicies g.policies).2 prompt [] []).mp hmf
    have hid : redactLoop (splitPolicies g.policies).2 ⟨prompt, false, [], []⟩ =
        ⟨prompt, false, [], []⟩ := redactLoop_nomatch _ _ hall
    have h0 : redactViols (splitPolicies g.policies).2 prompt = [] := by
      have hv := redactLoop_violations (splitPolicies g.policies).2 ⟨prompt, false, [], []⟩
      rw [hid] at hv
      simpa using hv.symm
    refine ⟨_, rfl, ?_, ?_⟩
    · simp only [allowedDecision]
      rw [redactLoop_text]
    · simp only [allowedDecision]
      rw [← redactViols_cumulative, h0]

/-- C4 witness: the single redact policy `ab -> a` on the prompt `abb`. -/
theorem cumulative_redaction_witness :
    ∃ d, process "safe" "abb" (some gidA) none storeAb = .ok d ∧
      d.redacted_prompt = some ((splitPolicies gAb.policies).2.foldl redactStep "abb") ∧
      d.evidence.violations =
        (List.finRange (splitPolicies gAb.policies).2.length).flatMap (fun i =>
          (reFind true ((splitPolicies gAb.policies).2.get i).pattern
              (((splitPolicies gAb.policies).2.take i.val).foldl redactStep "abb")).map
            (mkViolation ((splitPolicies gAb.policies).2.get i) "redact"
              (((splitPolicies gAb.policies).2.take i.val).foldl redactStep "abb"))) :=
  cumulative_redaction "safe" "abb" (some gidA) none storeAb gAb rfl rfl rfl

/-- C5 counterexample: a group id that is not a well-formed `ObjectId`
makes `process` raise (`bson.errors.InvalidId` escapes the pipeline)
instead of returning the fail-closed BLOCKED decision the claim
promises for every unresolvable selector. -/
theorem malformed_group_id_raises :
    process "safe" "hello" (some "nonexistent") none storeAb = .error "InvalidId" := rfl

/-- C5 amended: for a safe-classified prompt, whenever group resolution
completes and finds nothing — no selector, a well-formed but unknown id,
or an unknown name — the decision is BLOCKED with reason
`no_group_found` and no redacted prompt; a malformed id instead raises. -/
theorem fail_closed_no_group (label prompt : String) (gid gname : Option String)
    (st : Store)
    (hsafe : intentOf label = "safe")
    (hg : get_group_with_policies gid gname st = .ok none) :
    process label prompt gid gname st = .ok (noGroupDecision "safe" prompt) ∧
    (noGroupDecision "safe" prompt).status = "blocked" ∧
    (noGroupDecision "safe" prompt).evidence.reason = "no_group_found" ∧
    (noGroupDecision "safe" prompt).redacted_prompt = none := by
  refine ⟨?_, rfl, rfl, rfl⟩
  simp only [process]
  rw [hsafe, hg]
  rfl

/-- C5 witness: no selector at all resolves to the fail-closed decision. -/
theorem fail_closed_no_group_witness :
    process "safe" "hi" none none storeAb = .ok (noGroupDecision "safe" "hi") ∧
    (noGroupDecision "safe" "hi").status = "blocked" ∧
    (noGroupDecision "safe" "hi").evidence.reason = "no_group_found" ∧
    (noGroupDecision "safe" "hi").redacted_prompt = none :=
  fail_closed_no_group "safe" "hi" none none storeAb rfl rfl

/-- C6 counterexample: the raw oracle label `MALICIOUS` lies outside
`{safe, malicious}`, yet the pipeline blocks it as malicious (the label is
lowercased before the comparison) instead of proceeding as safe to group
resolution. -/
theorem unnormalized_label_blocks :
    ("MALICIOUS" ≠ "safe" ∧ "MALICIOUS" ≠ "malicious") ∧
    process "MALICIOUS" "hello" (some gidA) none storeAb = .ok (maliciousDecision "hello") ∧
    (maliciousDecision "hello").status = "blocked" ∧
    (maliciousDecision "hello").evidence.reason = "llm_classified_malicious" :=
  ⟨by decide, rfl, rfl, rfl⟩

/-- C6 amended: when the oracle label, stripped and lowercased, is outside
`{safe, malicious}`, the pipeline treats the intent as safe and behaves
exactly as if the oracle had answered `safe`. -/
theorem unknown_label_defaults_safe (label prompt : String) (gid gname : Option String)
    (st : Store)
    (h : strLower (strStrip label) ≠ "safe" ∧ strLower (strStrip label) ≠ "malicious") :
    intentOf label = "safe" ∧
    process label prompt gid gname st = process "safe" prompt gid gname st := by
  have hi : intentOf label = "safe" := by
    simp only [intentOf]
    rw [if_neg]
    simp [h.1, h.2]
  have h2 : intentOf "safe" = "safe" := rfl
  refine ⟨hi, ?_⟩
  simp only [process, hi, h2]

/-- C6 witness: the label `unsure` proceeds exactly as `safe`. -/
theorem unknown_label_defaults_safe_witness :
    intentOf "unsure" = "safe" ∧
    process "unsure" "hello" (some gidA) none storeAb =
      process "safe" "hello" (some gidA) none storeAb :=
  unknown_label_defaults_safe "unsure" "hello" (some gidA) none storeAb (by decide)

/-- C7 counterexample: the single redact policy `ab -> a` on the prompt
`abb` satisfies the claim's hypotheses and its proviso (the pattern has no
match in the replacement token `a`), the outcome is REDACTED with
`redacted_prompt = "ab"`, yet a second pass over `"ab"` finds a fresh
match — the replacement merged with the adjacent `b` into a new `ab` — so
the promised idempotence fails. -/
theorem redaction_not_idempotent :
    (process "safe" "abb" (some gidA) none storeAb).toOption.map Decision.status =
      some "redacted" ∧
    (process "safe" "abb" (some gidA) none storeAb).toOption.map Decision.redacted_prompt =
      some (some "ab") ∧
    reFind true maskAb.pattern maskAb.replacement = [] ∧
    (splitPolicies gAb.policies).1 = [] ∧
    reFind true maskAb.pattern "abb" ≠ [] ∧
    (redactLoop (splitPolicies gAb.policies).2 ⟨"ab", false, [], []⟩).made = true :=
  ⟨rfl, rfl, rfl, rfl, by decide, rfl⟩

/-- C7 amended: with safe intent, a resolved group, no block match and at
least one redact match, the outcome is REDACTED; a second pass of the same
redact policies over `redacted_prompt` produces zero additional matches
exactly when no policy's pattern matches `redacted_prompt` — the original
proviso (patterns not matching the replacement tokens) is not enough. -/
theorem redacted_second_pass (label prompt : String) (gid gname : Option String)
    (st : Store) (g : GroupPol)
    (hsafe : intentOf label = "safe")
    (hg : get_group_with_policies gid gname st = .ok (some g))
    (hnoblock : ∀ p ∈ (splitPolicies g.policies).1, reFind true p.pattern prompt = [])
    (hredact : ∃ p ∈ (splitPolicies g.policies).2, reFind true p.pattern prompt ≠ []) :
    ∃ d, process label prompt gid gname st = .ok d ∧ d.status = "redacted" ∧
      ∃ T, d.redacted_prompt = some T ∧
        ((redactLoop (splitPolicies g.policies).2 ⟨T, false, [], []⟩).made = false ↔
          ∀ p ∈ (splitPolicies g.policies).2, reFind true p.pattern T = []) := by
  rw [process_safe_group label prompt gid gname st g hsafe hg,
    firstBlockHit_eq_none.mpr hnoblock]
  have hm : (redactLoop (splitPolicies g.policies).2 ⟨prompt, false, [], []⟩).made = true :=
    redactLoop_made_of_match _ _ hredact
  dsimp only
  rw [if_pos hm]
  exact ⟨_, rfl, rfl, (redactLoop (splitPolicies g.policies).2 ⟨prompt, false, [], []⟩).text,
    rfl, redactLoop_made_false_iff _ _ [] []⟩

/-- C7 witness: the redact policy `ab -> a` on the prompt `abb`. -/
theorem redacted_second_pass_witness :
    ∃ d, process "safe" "abb" (some gidA) none storeAb = .ok d ∧ d.status = "redacted" ∧
      ∃ T, d.redacted_prompt = some T ∧
        ((redactLoop (splitPolicies gAb.policies).2 ⟨T, false, [], []⟩).made = false ↔
          ∀ p ∈ (splitPolicies gAb.policies).2, reFind true p.pattern T = []) :=
  redacted_second_pass "safe" "abb" (some gidA) none storeAb gAb rfl rfl (by decide)
    ⟨maskAb, by decide, by decide⟩

/-- C8: a safe prompt whose resolved group has no active policy matching
it is ALLOWED and its `redacted_prompt` is the original prompt,
unchanged. -/
theorem allowed_unchanged (label prompt : String) (gid gname : Option String)
    (st : Store) (g : GroupPol)
    (hsafe : intentOf label = "safe")
    (hg : get_group_with_policies gid gname st = .ok (some g))
    (hnone : ∀ p ∈ g.policies, p.active = true → reFind true p.pattern prompt = []) :
    process label prompt gid gname st = .ok (allowedDecision g "safe" prompt prompt) ∧
    (allowedDecision g "safe" prompt prompt).status = "allowed" ∧
    (allowedDecision g "safe" prompt prompt).redacted_prompt = some prompt := by
  refine ⟨?_, rfl, rfl⟩
  rw [process_safe_group label prompt gid gname st g hsafe hg]
  have hb : firstBlockHit prompt (splitPolicies g.policies).1 = none :=
    firstBlockHit_eq_none.mpr fun p hp =>
      hnone p (mem_splitPolicies_fst.mp hp).1 (mem_splitPolicies_fst.mp hp).2.1
  have hr : redactLoop (splitPolicies g.policies).2 ⟨prompt, false, [], []⟩ =
      ⟨prompt, false, [], []⟩ :=
    redactLoop_nomatch _ _ fun p hp =>
      hnone p (mem_splitPolicies_snd.mp hp).1 (mem_splitPolicies_snd.mp hp).2.1
  rw [hb]
  dsimp only
  rw [hr]
  rfl

/-- C8 witness: the prompt `hello` matches nothing in the redact-only
group. -/
theorem allowed_unchanged_witness :
    process "safe" "hello" (some gidA) none storeAb =
      .ok (allowedDecision gAb "safe" "hello" "hello") ∧
    (allowedDecision gAb "safe" "hello" "hello").status = "allowed" ∧
    (allowedDecision gAb "safe" "hello" "hello").redacted_prompt = some "hello" :=
  allowed_unchanged "safe" "hello" (some gidA) none storeAb gAb rfl rfl (by decide)

/-- C9: the pipeline matches every pattern through `reFind true _ _`, the
ignore-case mode of the engine (the model of compiling with
`re.IGNORECASE`); two texts that agree after lowercasing produce the very
same match spans, so a pattern that matches some text also matches every
letter-casing variant of it. -/
theorem ignorecase_matching (p : Policy) (s t : String)
    (h : s.data.map Char.toLower = t.data.map Char.toLower) :
    reFind true p.pattern s = reFind true p.pattern t ∧
    (reFind true p.pattern s ≠ [] → reFind true p.pattern t ≠ []) := by
  have he : reFind true p.pattern s = reFind true p.pattern t :=
    scanChars_ci p.pattern s.data t.data 0 0 h
  exact ⟨he, fun hne => he ▸ hne⟩

/-- C9 witness: the lowercase pattern `ab` finds the uppercase `AB`
exactly where it finds `ab`. -/
theorem ignorecase_matching_witness :
    reFind true maskAb.pattern "xABy" = reFind true maskAb.pattern "xaby" ∧
    (reFind true maskAb.pattern "xABy" ≠ [] → reFind true maskAb.pattern "xaby" ≠ []) :=
  ignorecase_matching maskAb "xABy" "xaby" (by decide)

/-- C10: a truthy group id short-circuits group resolution — the name
argument is never consulted, so resolving with any name equals resolving
with no name at all. -/
theorem group_id_precedence (gid : String) (nm : Option String) (st : Store)
    (h : gid ≠ "") :
    get_group_with_policies (some gid) nm st =
      get_group_with_policies (some gid) none st := by
  have ht : truthy (some gid) = true := by
    simp [truthy, h]
  simp [get_group_with_policies, ht]

/-- C10 witness: resolving `team`'s id with a contradictory name gives the
same result as resolving the id alone. -/
theorem group_id_precedence_witness :
    get_group_with_policies (some gidA) (some "other") storeAb =
      get_group_with_policies (some gidA) none storeAb :=
  group_id_precedence gidA (some "other") storeAb (by decide)

end Firewall
